import Mathlib

/-!
Verification of the HID report-descriptor parser, field-value extractor,
report translator and BLE-stack lifecycle logic of the adept-wireless-ext
firmware.  Each C function under scrutiny is embedded as a Lean function on
mathematical integers, with machine-width truncation made explicit
(`% 2 ^ 8`, `% 2 ^ 16`, `% 2 ^ 32`) exactly where the C types force it.
-/

namespace AdeptExt

/-! ## Field value extractor (src/main/usb/descriptor_parser.c, extract_field_value)

The C function signature is
`int extract_field_value(const uint8_t *data, uint16_t bit_offset, uint16_t bit_size)`.
The payload is modelled as `Nat → Nat`, one byte per index (only the low 8
bits of each byte are ever consulted, mirroring `uint8_t`); the possibly-NULL
pointer is modelled as `Option`.  The accumulator `value` only ever holds bits
below `bit_size ≤ 32`, so plain `Nat` accumulation with a final 32-bit signed
reinterpretation is exact. -/

/-- Reinterpret a 32-bit unsigned pattern as a signed C `int`. -/
def toSigned32 (v : Nat) : Int :=
  if v < 2 ^ 31 then (v : Int) else (v : Int) - 2 ^ 32

/-- The `while (bits_remaining > 0)` loop of `extract_field_value`.
`fuel` is an upper bound on the number of iterations (the C loop removes
`min (8 - bit_shift) bits_remaining ≥ 1` bits per iteration, so
`fuel = bits_remaining` at entry is enough; structural recursion on `fuel`
keeps the definition kernel-reducible). -/
def extractLoop (data : Nat → Nat) (bit_size : Nat) :
    Nat → Nat → Nat → Nat → Nat → Nat
  | 0, _, _, _, acc => acc
  | _ + 1, 0, _, _, acc => acc
  | fuel + 1, bits_remaining@(_ + 1), byte_offset, bit_shift, acc =>
      let bits_to_read := min (8 - bit_shift) bits_remaining
      let mask := 2 ^ bits_to_read - 1
      let byte_value := (data byte_offset >>> bit_shift) &&& mask
      let shift_amount := bit_size - bits_remaining
      extractLoop data bit_size fuel (bits_remaining - bits_to_read)
        (byte_offset + 1) 0 (acc ||| (byte_value <<< shift_amount))

/-- Embedding of `extract_field_value`.  Returns `0` on NULL data,
`bit_size = 0` or `bit_size > 32`; for `bit_size = 1` it takes the
single-bit fast path, which returns the raw bit WITHOUT sign extension
(lines 263–268 of descriptor_parser.c); otherwise it accumulates the bits
little-endian and sign-extends on the top bit of the accumulator. -/
def extract_field_value (data : Option (Nat → Nat)) (bit_offset bit_size : Nat) : Int :=
  match data with
  | none => 0
  | some d =>
    if bit_size = 0 ∨ bit_size > 32 then 0
    else
      let byte_offset := bit_offset / 8
      let bit_shift := bit_offset % 8
      if bit_size = 1 then
        ((d byte_offset >>> bit_shift) &&& 1 : Nat)
      else
        let raw := extractLoop d bit_size bit_size bit_size byte_offset bit_shift 0
        let v := if bit_size < 32 ∧ Nat.testBit raw (bit_size - 1)
                 then raw ||| (2 ^ 32 - 2 ^ bit_size) else raw
        toSigned32 v

/-- Reference reading of the payload as a little-endian bit stream:
bit `p` of the stream is bit `p % 8` of byte `p / 8`. -/
def streamBit (d : Nat → Nat) (p : Nat) : Bool :=
  Nat.testBit (d (p / 8)) (p % 8)

/-- The natural number whose binary digits are the `n` stream bits starting
at position `pos`, LSB first. -/
def readBits (d : Nat → Nat) (pos : Nat) : Nat → Nat
  | 0 => 0
  | n + 1 => (if streamBit d pos then 1 else 0) + 2 * readBits d (pos + 1) n

/-- Two's-complement reinterpretation of a `w`-bit unsigned pattern. -/
def twosComplement (m w : Nat) : Int :=
  if m < 2 ^ (w - 1) then (m : Int) else (m : Int) - 2 ^ w

/-- A payload holding the unsigned pattern `m` left-shifted to bit position
`offset`, zero elsewhere: byte `k` is byte `k` of `m <<< offset`. -/
def bufOf (m offset : Nat) : Nat → Nat := fun k => ((m <<< offset) >>> (8 * k)) &&& 255

/-- The payload byte `0x05` followed by zero bytes (Scenario B input). -/
def payload05 : Nat → Nat := fun k => if k = 0 then 5 else 0

/-! ## Report descriptor parser (src/main/usb/descriptor_parser.c, parse_report_descriptor)

The descriptor is modelled as `d : Nat → Nat` (an array of `uint8_t`: only
`d i % 256` is read) together with the declared `length`.  The parallel C
arrays `report_ids[]` / `reports[]` become a list of pairs; fixed-capacity
C arrays become lists whose growth is guarded by the same bounds the C
checks (`MAX_REPORT_FIELDS = 48`, `MAX_COLLECTION_DEPTH = 8`).
`MAX_REPORTS_PER_INTERFACE` is declared in a header that is not part of the
sources at hand; its exact value does not affect the claims below (the
relevant guards appear as hypotheses), so it is fixed at 4 here. -/

def MAX_REPORT_FIELDS : Nat := 48

def MAX_COLLECTION_DEPTH : Nat := 8

def MAX_REPORTS_PER_INTERFACE : Nat := 4

/-- `usb_hid_field_attr_t` as populated by the parser.  The C leaves
`usage_maximum` unassigned (stale memory) except in the array-with-range
branch; the model writes 0 there, and no verified claim depends on it. -/
structure FieldAttr where
  usage_page : Nat
  usage : Nat
  usage_maximum : Nat
  report_size : Nat
  report_count : Nat
  logical_min : Int
  logical_max : Int
  constant : Bool
  var : Bool      -- `variable` in the C struct (`variable` is reserved in Lean)
  relative : Bool
  array : Bool
  deriving DecidableEq, Repr

/-- `report_field_info_t`: attributes plus placement. -/
structure FieldInfo where
  attr : FieldAttr
  bit_offset : Nat   -- uint16_t
  bit_size : Nat     -- uint16_t
  deriving DecidableEq, Repr

/-- `report_info_t`: the per-report-ID portion of the map.  `usage_stack_pos`
is the length of `usage_stack`. -/
structure ReportInfo where
  fields : List FieldInfo
  total_bits : Nat          -- uint16_t, kept below 2 ^ 16
  usage_stack : List Nat    -- uint16_t entries, capacity MAX_REPORT_FIELDS
  deriving DecidableEq, Repr

/-- `report_map_t`: parallel arrays `report_ids[]`/`reports[]` as a list of
`(report_id, info)` pairs, plus the collection bookkeeping. -/
structure ReportMap where
  reports : List (Nat × ReportInfo)
  collection_stack : List Nat   -- capacity MAX_COLLECTION_DEPTH
  deriving DecidableEq, Repr

/-- The locals of `parse_report_descriptor` plus the map being built.
`current` is the index the C `current_report` pointer designates. -/
structure ParserState where
  usage_page : Nat        -- uint16_t
  report_size : Nat       -- uint8_t
  report_count : Nat      -- uint8_t
  logical_min : Int       -- int
  logical_max : Int       -- int
  current_usage : Nat     -- uint16_t
  usage_minimum : Nat     -- uint16_t
  usage_maximum : Nat     -- uint16_t
  has_usage_range : Bool
  current_report_id : Nat -- uint8_t
  rmap : ReportMap
  current : Nat
  deriving DecidableEq, Repr

def emptyReport : ReportInfo :=
  { fields := [], total_bits := 0, usage_stack := [] }

def initState : ParserState :=
  { usage_page := 0, report_size := 0, report_count := 0,
    logical_min := 0, logical_max := 0,
    current_usage := 0, usage_minimum := 0, usage_maximum := 0,
    has_usage_range := false, current_report_id := 0,
    rmap := { reports := [(0, emptyReport)], collection_stack := [] },
    current := 0 }

/-- Apply `f` to report number `i` of the map (no-op when out of range,
mirroring that the C pointer always designates a live slot). -/
def modifyReport (m : ReportMap) (i : Nat) (f : ReportInfo → ReportInfo) : ReportMap :=
  match m.reports.get? i with
  | some (rid, info) => { m with reports := m.reports.set i (rid, f info) }
  | none => m

/-- Lines 62–85: if a report ID is in force, find or create the matching
report and make it current; `none` models the C `continue` when the report
table is full. -/
def resolveCurrent (s : ParserState) : Option ParserState :=
  if s.current_report_id = 0 then some s
  else
    match s.rmap.reports.findIdx? (fun p => p.1 = s.current_report_id) with
    | some j => some { s with current := j }
    | none =>
      if s.rmap.reports.length ≥ MAX_REPORTS_PER_INTERFACE then none
      else some { s with
        rmap := { s.rmap with reports := s.rmap.reports ++ [(s.current_report_id, emptyReport)] },
        current := s.rmap.reports.length }

/-- Lines 87–103: the constant/padding field. -/
def mkConstField (s : ParserState) (r : ReportInfo) : FieldInfo :=
  { attr := { usage_page := s.usage_page, usage := 0, usage_maximum := 0,
              report_size := s.report_size, report_count := s.report_count,
              logical_min := 0, logical_max := 0,
              constant := true, var := false, relative := false, array := false },
    bit_offset := r.total_bits,
    bit_size := s.report_size * s.report_count }

/-- Lines 104–121: the array-with-usage-range field. -/
def mkArrayRangeField (s : ParserState) (rel : Bool) (r : ReportInfo) : FieldInfo :=
  { attr := { usage_page := s.usage_page, usage := s.usage_minimum,
              usage_maximum := s.usage_maximum,
              report_size := s.report_size, report_count := s.report_count,
              logical_min := s.logical_min, logical_max := s.logical_max,
              constant := false, var := false, relative := rel, array := true },
    bit_offset := r.total_bits,
    bit_size := s.report_size * s.report_count }

/-- Lines 122–141: the expansion loop for variable items with a usage
range.  `fuel` starts at `report_count`, the maximal iteration count of the
C `for` loop. -/
def emitRange (s : ParserState) (rel : Bool) (range_size : Nat) :
    Nat → Nat → ReportInfo → ReportInfo
  | 0, _, r => r
  | fuel + 1, j, r =>
    if j < s.report_count ∧ j < range_size ∧ r.fields.length < MAX_REPORT_FIELDS then
      emitRange s rel range_size fuel (j + 1)
        { r with
          fields := r.fields ++
            [{ attr := { usage_page := s.usage_page,
                         usage := (s.usage_minimum + j) % 2 ^ 16, usage_maximum := 0,
                         report_size := s.report_size, report_count := 1,
                         logical_min := s.logical_min, logical_max := s.logical_max,
                         constant := false, var := true, relative := rel, array := false },
               bit_offset := r.total_bits, bit_size := s.report_size }],
          total_bits := (r.total_bits + s.report_size) % 2 ^ 16 }
    else r

/-- Lines 142–168: the expansion loop for individual usages, drawing the
usage of the j-th unit from the (resolved) report's usage stack. -/
def emitUsages (s : ParserState) (isVar rel : Bool) :
    Nat → Nat → ReportInfo → ReportInfo
  | 0, _, r => r
  | fuel + 1, j, r =>
    if j < s.report_count ∧ r.fields.length < MAX_REPORT_FIELDS then
      let u :=
        if r.usage_stack.length > j then r.usage_stack.getD j 0
        else if r.usage_stack.length > 0 then r.usage_stack.getD (r.usage_stack.length - 1) 0
        else s.current_usage
      emitUsages s isVar rel fuel (j + 1)
        { r with
          fields := r.fields ++
            [{ attr := { usage_page := s.usage_page, usage := u, usage_maximum := 0,
                         report_size := s.report_size, report_count := 1,
                         logical_min := s.logical_min, logical_max := s.logical_max,
                         constant := false, var := isVar, relative := rel, array := !isVar },
               bit_offset := r.total_bits, bit_size := s.report_size }],
          total_bits := (r.total_bits + s.report_size) % 2 ^ 16 }
    else r

/-- Lines 54–176: one Main Input/Output item.  The capacity guard is
evaluated on the report that is current on entry (before report-ID
resolution), exactly as in the C. -/
def processMainInputOutput (s : ParserState) (data : Nat) : ParserState :=
  match s.rmap.reports.get? s.current with
  | none => s
  | some (_, rOld) =>
    if rOld.fields.length < MAX_REPORT_FIELDS then
      let is_constant := data &&& 1 ≠ 0
      let is_variable := data &&& 2 ≠ 0
      let rel := data &&& 4 ≠ 0
      let is_array := ¬ is_variable
      match resolveCurrent s with
      | none => s
      | some s1 =>
        let s2 : ParserState :=
          if is_constant then
            { s1 with rmap := modifyReport s1.rmap s1.current (fun r =>
                { r with fields := r.fields ++ [mkConstField s1 r],
                         total_bits := (r.total_bits + s1.report_size * s1.report_count) % 2 ^ 16 }) }
          else if is_array ∧ s1.has_usage_range then
            { s1 with rmap := modifyReport s1.rmap s1.current (fun r =>
                { r with fields := r.fields ++ [mkArrayRangeField s1 rel r],
                         total_bits := (r.total_bits + s1.report_size * s1.report_count) % 2 ^ 16 }) }
          else if s1.has_usage_range ∧ is_variable then
            let range_size := (s1.usage_maximum + 2 ^ 16 - s1.usage_minimum + 1) % 2 ^ 16
            { s1 with
              rmap := modifyReport s1.rmap s1.current (emitRange s1 rel range_size s1.report_count 0) }
          else
            { s1 with
              rmap := modifyReport s1.rmap s1.current (emitUsages s1 is_variable rel s1.report_count 0) }
        -- lines 170–175: reset of the Local state after field processing
        { s2 with
          rmap := modifyReport s2.rmap s2.current (fun r => { r with usage_stack := [] }),
          has_usage_range := false, usage_minimum := 0, usage_maximum := 0 }
    else s

/-- Sign interpretation of Logical Minimum / Maximum data
(lines 196–212): the item's own data size selects an 8-, 16- or 32-bit
signed reading. -/
def logicalValue (item_size data : Nat) : Int :=
  if item_size = 1 ∧ data &&& 0x80 ≠ 0 then (data % 2 ^ 8 : Nat) - (2 ^ 8 : Int)
  else if item_size = 2 ∧ data &&& 0x8000 ≠ 0 then (data % 2 ^ 16 : Nat) - (2 ^ 16 : Int)
  else toSigned32 data

/-- Lines 51–244: dispatch of one decoded item. -/
def processItem (s : ParserState) (ityp itag item_size data : Nat) : ParserState :=
  match ityp with
  | 0 =>  -- Main
    match itag with
    | 8 => processMainInputOutput s data
    | 9 => processMainInputOutput s data
    | 10 =>
      if s.rmap.collection_stack.length < MAX_COLLECTION_DEPTH then
        { s with rmap := { s.rmap with
            collection_stack := s.rmap.collection_stack ++ [data % 2 ^ 16] } }
      else s
    | 12 =>
      if s.rmap.collection_stack.length > 0 then
        { s with rmap := { s.rmap with
            collection_stack := s.rmap.collection_stack.dropLast } }
      else s
    | _ => s
  | 1 =>  -- Global
    match itag with
    | 0 => { s with usage_page := data % 2 ^ 16 }
    | 1 => { s with logical_min := logicalValue item_size data }
    | 2 => { s with logical_max := logicalValue item_size data }
    | 7 => { s with report_size := data % 2 ^ 8 }
    | 8 => { s with current_report_id := data % 2 ^ 8 }
    | 9 => { s with report_count := data % 2 ^ 8 }
    | _ => s
  | 2 =>  -- Local
    match itag with
    | 0 =>
      let s1 :=
        { s with rmap := modifyReport s.rmap s.current (fun r =>
            if r.usage_stack.length < MAX_REPORT_FIELDS then
              { r with usage_stack := r.usage_stack ++ [data % 2 ^ 16] }
            else r) }
      { s1 with current_usage := data % 2 ^ 16 }
    | 1 => { s with usage_minimum := data % 2 ^ 16, has_usage_range := true }
    | 2 => { s with usage_maximum := data % 2 ^ 16, has_usage_range := true }
    | _ => s
  | _ => s

/-- Lines 45–49: gather up to `item_size` data bytes, stopping at the
declared descriptor length; returns the accumulated little-endian data and
the new read index. -/
def readDataAux (d : Nat → Nat) (length : Nat) :
    Nat → Nat → Nat → Nat → Nat × Nat
  | 0, i, _, acc => (acc, i)
  | cnt + 1, i, j, acc =>
    if i < length then
      readDataAux d length cnt (i + 1) (j + 1) (acc ||| ((d i % 2 ^ 8) <<< (j * 8)))
    else (acc, i)

/-- Lines 38–245: the item loop.  `fuel` bounds the iteration count; each
iteration consumes at least the header byte, so `fuel = length` at entry is
exact. -/
def parseLoop (d : Nat → Nat) (length : Nat) : Nat → Nat → ParserState → ParserState
  | 0, _, s => s
  | fuel + 1, i, s =>
    if i < length then
      let item := d i % 2 ^ 8
      let item_size := item &&& 3
      let item_type := (item >>> 2) &&& 3
      let item_tag := (item >>> 4) &&& 15
      let r := readDataAux d length item_size (i + 1) 0 0
      parseLoop d length fuel r.2 (processItem s item_type item_tag item_size r.1)
    else s

/-- `parse_report_descriptor(desc, length, ...)`. -/
def parse_report_descriptor (d : Nat → Nat) (length : Nat) : ParserState :=
  parseLoop d length length 0 initState

/-- The boot-keyboard report descriptor of Scenario A. -/
def bootKbdDesc : List Nat :=
  [0x05, 0x01, 0x09, 0x06, 0xA1, 0x01, 0x05, 0x07, 0x19, 0xE0, 0x29, 0xE7,
   0x15, 0x00, 0x25, 0x01, 0x75, 0x01, 0x95, 0x08, 0x81, 0x02, 0x95, 0x01,
   0x75, 0x08, 0x81, 0x01, 0xC0]

/-! ## Protocol translator (src/main/hid_bridge.c, process_keyboard_report) and
BLE send path (src/main/ble/ble_hid_device.c, ble_hid_device_send_keyboard_report)

`keyboard_report_t` is declared in a header that is not among the sources
at hand; its members are reconstructed from their uses in the two C files:
`modifier` (written bitwise by the bridge, sent as byte 0), `reserved`
(sent as byte 1), `keycodes` (a bitmask accumulator written by the bridge
at line 285 and never read by the send path) and `keycode` (a 6-byte array
sent as bytes 2–7 and never written by the bridge).  `1UL << usage` in the
C is undefined for `usage ≥ 32` on the 32-bit target; it is modelled as a
plain `Nat` shift, which is immaterial because `keycodes` never reaches the
wire. -/

def HID_USAGE_KEYPAD : Nat := 7

structure UsbFieldAttr where
  usage_page : Nat
  usage : Nat
  deriving DecidableEq, Repr

structure UsbHidField where
  attr : UsbFieldAttr
  value : Int    -- field->values[0]
  deriving DecidableEq, Repr

structure UsbHidReport where
  report_id : Nat
  if_id : Nat
  num_fields : Nat
  fields : List UsbHidField
  is_mouse : Bool
  is_keyboard : Bool
  deriving DecidableEq, Repr

structure keyboard_report_t where
  modifier : Nat        -- uint8_t
  reserved : Nat        -- uint8_t
  keycodes : Nat        -- bitmask accumulator (hid_bridge.c line 285)
  keycode : List Nat    -- uint8_t[6] boot-protocol slots (ble_hid_device.c line 234)
  deriving DecidableEq, Repr

/-- `keyboard_report_t ble_kb_report = {0};` -/
def zeroKb : keyboard_report_t :=
  { modifier := 0, reserved := 0, keycodes := 0, keycode := List.replicate 6 0 }

/-- Lines 277–288: the per-field classification of `process_keyboard_report`. -/
def kbStep (kb : keyboard_report_t) (field : UsbHidField) : keyboard_report_t :=
  if field.attr.usage_page = HID_USAGE_KEYPAD then
    if 0xE0 ≤ field.attr.usage ∧ field.attr.usage ≤ 0xE7 ∧ field.value ≠ 0 then
      { kb with modifier := kb.modifier ||| (1 <<< (field.attr.usage - 0xE0)) }
    else if field.attr.usage ≤ 0xA4 ∧ field.value ≠ 0 then
      { kb with keycodes := kb.keycodes ||| (1 <<< field.attr.usage) }
    else kb
  else kb

/-- Lines 270–291: `none` models the early `return ESP_OK` on a field-count
mismatch (no report is sent); otherwise the composed report is handed to
`ble_hid_device_send_keyboard_report`. -/
def process_keyboard_report (expected_fields : Nat) (report : UsbHidReport) :
    Option keyboard_report_t :=
  if expected_fields ≠ report.num_fields then none
  else some (report.fields.foldl kbStep zeroKb)

/-- Lines 225–238: the 8 bytes put on the wire, `none` when no BLE peer is
connected. -/
def ble_hid_device_send_keyboard_report (connected : Bool)
    (report : keyboard_report_t) : Option (List Nat) :=
  if ¬ connected then none
  else some ([report.modifier, report.reserved] ++ report.keycode.take 6)

/-! ## BLE-stack lifecycle (src/main/hid_bridge.c)

The state machine of §4.5: `s_ble_stack_active = true` is `Active`,
`false` is `Suspended`.  The externally observable predicates and the
fallible collaborator results are snapshot in an environment record; the
boolean returned alongside the state records whether
`ble_hid_device_deinit` was invoked. -/

structure BridgeEnv where
  mutex_ok : Bool       -- the bounded xSemaphoreTake succeeds
  usb_connected : Bool  -- usb_hid_host_device_connected()
  ble_connected : Bool  -- ble_hid_device_connected()
  wifi_connected : Bool -- is_wifi_connected(): higher-priority web session
  enable_sleep : Bool   -- s_enable_sleep (power.enableSleep)
  deinit_ok : Bool      -- ble_hid_device_deinit() succeeds
  init_ok : Bool        -- ble_hid_device_init() succeeds
  initialized : Bool    -- s_hid_bridge_initialized
  deriving DecidableEq, Repr

structure BridgeState where
  ble_stack_active : Bool
  deriving DecidableEq, Repr

/-- Lines 37–81: the inactivity-timer callback.  Returns the new state and
whether `ble_hid_device_deinit` was called. -/
def inactivity_timer_callback (env : BridgeEnv) (s : BridgeState) :
    BridgeState × Bool :=
  if ¬ env.mutex_ok then (s, false)
  else if ¬ s.ble_stack_active then (s, false)
  else if ¬ env.usb_connected ∨ ¬ env.ble_connected then (s, false)
  else if env.wifi_connected then (s, false)
  else if ¬ env.enable_sleep then (s, false)
  else if ¬ env.deinit_ok then ({ ble_stack_active := true }, true)
  else ({ ble_stack_active := false }, true)

inductive ReportOutcome where
  | errNotInitialized   -- ESP_ERR_INVALID_STATE
  | errMutex            -- ESP_FAIL
  | errInitFail         -- the error from ble_hid_device_init, report dropped
  | skippedNotConnected -- ESP_OK without sending
  | translated          -- handed to process_mouse/keyboard_report
  deriving DecidableEq, Repr

/-- Lines 332–423 of `hid_bridge_process_report`, restricted to the
lifecycle-relevant control flow (timer rearm has no modelled state; the
double-check of `s_ble_stack_active` under the mutex re-reads the same
snapshot in this sequential model). -/
def hid_bridge_process_report (env : BridgeEnv) (s : BridgeState) :
    BridgeState × ReportOutcome :=
  if ¬ env.initialized then (s, ReportOutcome.errNotInitialized)
  else if ¬ s.ble_stack_active then
    if ¬ env.mutex_ok then (s, ReportOutcome.errMutex)
    else if ¬ env.init_ok then ({ ble_stack_active := false }, ReportOutcome.errInitFail)
    else if ¬ env.ble_connected then ({ ble_stack_active := true }, ReportOutcome.skippedNotConnected)
    else ({ ble_stack_active := true }, ReportOutcome.translated)
  else if ¬ env.ble_connected then (s, ReportOutcome.skippedNotConnected)
  else (s, ReportOutcome.translated)

/-! ## Concrete scenario inputs and the map-extension invariant used by the claims -/

/-- The eight expanded modifier fields of Scenario A (usages 0xE0 + j). -/
def bootModField (j : Nat) : FieldInfo :=
  { attr := { usage_page := 7, usage := 0xE0 + j, usage_maximum := 0,
              report_size := 1, report_count := 1, logical_min := 0, logical_max := 1,
              constant := false, var := true, relative := false, array := false },
    bit_offset := j, bit_size := 1 }

/-- The constant 8-bit padding field of Scenario A. -/
def bootPadField : FieldInfo :=
  { attr := { usage_page := 7, usage := 0, usage_maximum := 0,
              report_size := 8, report_count := 1, logical_min := 0, logical_max := 0,
              constant := true, var := false, relative := false, array := false },
    bit_offset := 8, bit_size := 8 }

/-- The keyboard report of Scenario C: one non-zero modifier-range field
(usage 0xE1, Left Shift) and two non-zero key-usage fields (0x04, 0x05). -/
def kbScenarioReport : UsbHidReport :=
  { report_id := 0, if_id := 0, num_fields := 3,
    fields :=
      [{ attr := { usage_page := 7, usage := 0xE1 }, value := 1 },
       { attr := { usage_page := 7, usage := 0x04 }, value := 1 },
       { attr := { usage_page := 7, usage := 0x05 }, value := 1 }],
    is_mouse := false, is_keyboard := true }

/-- A Usage item (0x41) immediately followed by a Collection item. -/
def c5DescA : List Nat := [0x09, 0x41, 0xA1, 0x01]

/-- Usages 0x41, 0x42 pushed BEFORE a Collection Main item, then (inside
the collection) an 8-bit, count-2 variable Input item. -/
def c5DescB : List Nat :=
  [0x09, 0x41, 0x09, 0x42, 0xA1, 0x01, 0x75, 0x08, 0x95, 0x02, 0x81, 0x02]

/-- A state about to process the witness item for C9: usage page 1, an
8-bit, count-2 report unit. -/
def c9State : ParserState :=
  { initState with usage_page := 1, report_size := 8, report_count := 2 }

/-- Report-map extension: every report present in `m` is still present at
the same index in `m'`, with the same report ID and with its field list as
a prefix (no emitted field is ever dropped or changed). -/
def MapExtends (m m' : ReportMap) : Prop :=
  m.reports.length ≤ m'.reports.length ∧
  ∀ i p, m.reports.get? i = some p →
    ∃ q, m'.reports.get? i = some q ∧ q.1 = p.1 ∧ ∃ t, q.2.fields = p.2.fields ++ t

/-! ## Extractor correctness theory -/

lemma readBits_lt (d : Nat → Nat) (n : Nat) : ∀ pos, readBits d pos n < 2 ^ n := by
  induction n with
  | zero => intro pos; simp [readBits]
  | succ n ih =>
    intro pos
    have h := ih (pos + 1)
    have h2 : (2 : Nat) ^ (n + 1) = 2 * 2 ^ n := by ring
    have hb : (if streamBit d pos then 1 else 0) ≤ 1 := by split <;> simp
    simp only [readBits]
    omega

lemma testBit_readBits (d : Nat → Nat) (n : Nat) :
    ∀ pos j, (readBits d pos n).testBit j = (decide (j < n) && streamBit d (pos + j)) := by
  induction n with
  | zero => intro pos j; simp [readBits]
  | succ n ih =>
    intro pos j
    cases j with
    | zero =>
      simp only [readBits, Nat.testBit_zero, Nat.add_zero]
      have h0 : (decide (0 < n + 1) && streamBit d pos) = streamBit d pos := by simp
      rw [h0]
      cases h : streamBit d pos <;> simp [h]
    | succ j =>
      have hdiv : ((if streamBit d pos then 1 else 0) + 2 * readBits d (pos + 1) n) / 2
          = readBits d (pos + 1) n := by split <;> omega
      rw [readBits, Nat.testBit_add_one, hdiv, ih]
      have hpos : pos + 1 + j = pos + (j + 1) := by omega
      rw [hpos]
      congr 1
      simp [Nat.succ_lt_succ_iff]

lemma or_shiftLeft_eq_add (x y a : Nat) (hx : x < 2 ^ a) :
    x ||| (y <<< a) = y * 2 ^ a + x := by
  apply Nat.eq_of_testBit_eq
  intro j
  rw [Nat.testBit_or, Nat.testBit_shiftLeft, show y * 2 ^ a + x = 2 ^ a * y + x from by ring,
    Nat.testBit_mul_pow_two_add y hx j]
  by_cases h : j < a
  · have h' : ¬ a ≤ j := by omega
    simp [h, h']
  · have ha : a ≤ j := by omega
    have hxj : x.testBit j = false :=
      Nat.testBit_lt_two_pow (lt_of_lt_of_le hx (Nat.pow_le_pow_right (by norm_num) ha))
    simp [h, ha, hxj]

lemma shiftLeft_or_distrib (x y s : Nat) : (x ||| y) <<< s = (x <<< s) ||| (y <<< s) := by
  apply Nat.eq_of_testBit_eq
  intro j
  simp [Nat.testBit_shiftLeft, Nat.testBit_or, Bool.and_or_distrib_left]

lemma shiftLeft_comp (x a b : Nat) : (x <<< a) <<< b = x <<< (a + b) := by
  simp only [Nat.shiftLeft_eq, pow_add]
  ring

lemma readBits_add (d : Nat → Nat) (a : Nat) :
    ∀ pos b, readBits d pos (a + b) = readBits d pos a + readBits d (pos + a) b <<< a := by
  induction a with
  | zero => intro pos b; simp [readBits]
  | succ a ih =>
    intro pos b
    have hr : a + 1 + b = (a + b) + 1 := by omega
    rw [hr]
    simp only [readBits]
    rw [ih (pos + 1) b]
    have hpos : pos + 1 + a = pos + (a + 1) := by omega
    rw [hpos]
    simp only [Nat.shiftLeft_eq, pow_succ]
    ring

lemma byte_read_eq_readBits (d : Nat → Nat) (bo sh btr : Nat) (h : sh + btr ≤ 8) :
    (d bo >>> sh) &&& (2 ^ btr - 1) = readBits d (8 * bo + sh) btr := by
  apply Nat.eq_of_testBit_eq
  intro j
  rw [Nat.testBit_and, Nat.testBit_shiftRight, Nat.testBit_two_pow_sub_one, testBit_readBits]
  by_cases hj : j < btr
  · have hdiv : (8 * bo + sh + j) / 8 = bo := by omega
    have hmod : (8 * bo + sh + j) % 8 = sh + j := by omega
    simp [streamBit, hj, hdiv, hmod]
  · simp [hj]

lemma extractLoop_eq (d : Nat → Nat) (size : Nat) :
    ∀ fuel rem bo sh acc, rem ≤ fuel → sh < 8 → rem ≤ size →
      extractLoop d size fuel rem bo sh acc
        = acc ||| (readBits d (8 * bo + sh) rem <<< (size - rem)) := by
  intro fuel
  induction fuel with
  | zero =>
    intro rem bo sh acc h1 _ _
    have : rem = 0 := by omega
    subst this
    simp [extractLoop, readBits]
  | succ fuel ih =>
    intro rem bo sh acc h1 hsh hsize
    cases rem with
    | zero => simp [extractLoop, readBits]
    | succ r =>
      simp only [extractLoop]
      set btr := min (8 - sh) (r + 1) with hbtr
      have hbtr_le1 : btr ≤ 8 - sh := min_le_left _ _
      have hbtr_le2 : btr ≤ r + 1 := min_le_right _ _
      have hbtr1 : 1 ≤ btr := by
        rcases le_total (8 - sh) (r + 1) with h | h
        · rw [hbtr, min_eq_left h]; omega
        · rw [hbtr, min_eq_right h]; omega
      have hshbtr : sh + btr ≤ 8 := by omega
      rw [ih (r + 1 - btr) (bo + 1) 0 _ (by omega) (by norm_num) (by omega)]
      rw [byte_read_eq_readBits d bo sh btr hshbtr]
      set B := readBits d (8 * bo + sh) btr with hB
      set T := readBits d (8 * bo + sh + btr) (r + 1 - btr) with hT
      have hT' : readBits d (8 * (bo + 1) + 0) (r + 1 - btr) = T := by
        by_cases hc : sh + btr = 8
        · have hpos : 8 * (bo + 1) + 0 = 8 * bo + sh + btr := by omega
          rw [hpos]
        · have hbtr' : btr = r + 1 := by
            rcases le_total (8 - sh) (r + 1) with h | h
            · exfalso; rw [hbtr, min_eq_left h] at hc; omega
            · rw [hbtr, min_eq_right h]
          rw [hbtr'] at hT ⊢
          simp [hT, readBits]
      rw [hT']
      have hsplit : readBits d (8 * bo + sh) (r + 1) = B + T <<< btr := by
        have hr : r + 1 = btr + (r + 1 - btr) := by omega
        rw [hr, readBits_add, ← hB, ← hT]
      rw [hsplit]
      have hBor : B + T <<< btr = B ||| (T <<< btr) := by
        rw [or_shiftLeft_eq_add B T btr (readBits_lt d btr _), Nat.shiftLeft_eq]
        ring
      rw [hBor, shiftLeft_or_distrib, shiftLeft_comp]
      have hexp : btr + (size - (r + 1)) = size - (r + 1 - btr) := by omega
      rw [hexp, Nat.or_assoc]

/-- The accumulation loop of `extract_field_value` reads exactly the
`bit_size` stream bits starting at `bit_offset`. -/
lemma extractRaw_eq_readBits (d : Nat → Nat) (off w : Nat) :
    extractLoop d w w w (off / 8) (off % 8) 0 = readBits d off w := by
  rw [extractLoop_eq d w w w (off / 8) (off % 8) 0 le_rfl (Nat.mod_lt _ (by norm_num)) le_rfl]
  rw [Nat.div_add_mod off 8]
  simp

/-- For `2 ≤ bit_size ≤ 32`, `extract_field_value` returns the
two's-complement reinterpretation of the `bit_size` stream bits starting at
`bit_offset`.  (For `bit_size = 1` the fast path applies instead, see
`extract_one_bit`.) -/
theorem extract_eq_twosComplement (d : Nat → Nat) (off w : Nat)
    (h2 : 2 ≤ w) (h32 : w ≤ 32) :
    extract_field_value (some d) off w = twosComplement (readBits d off w) w := by
  have hg : ¬ (w = 0 ∨ w > 32) := by omega
  have h1 : ¬ (w = 1) := by omega
  simp only [extract_field_value, hg, if_false, h1, extractRaw_eq_readBits]
  set m := readBits d off w with hm
  have hmlt : m < 2 ^ w := readBits_lt d w off
  by_cases hw32 : w < 32
  · by_cases htop : Nat.testBit m (w - 1)
    · simp only [hw32, htop, and_self, if_true, true_and]
      have hpow : 2 ^ 32 - 2 ^ w = (2 ^ (32 - w) - 1) <<< w := by
        rw [Nat.shiftLeft_eq, Nat.sub_mul, one_mul, ← pow_add]
        congr 2
        omega
      have hor : m ||| (2 ^ 32 - 2 ^ w) = (2 ^ (32 - w) - 1) * 2 ^ w + m := by
        rw [hpow, or_shiftLeft_eq_add m _ w hmlt]
      rw [hor]
      have hval : (2 ^ (32 - w) - 1) * 2 ^ w + m = 2 ^ 32 - 2 ^ w + m := by
        have hexp : 32 - w + w = 32 := by omega
        rw [Nat.sub_mul, one_mul, ← pow_add, hexp]
      rw [hval]
      have hmge : 2 ^ (w - 1) ≤ m := Nat.testBit_implies_ge htop
      have hww : (2 : Nat) ^ w = 2 * 2 ^ (w - 1) := by
        rw [← pow_succ']
        congr 1
        omega
      have h31 : (2 : Nat) ^ (w - 1) ≤ 2 ^ 31 := Nat.pow_le_pow_right (by norm_num) (by omega)
      have h32' : (2 : Nat) ^ w ≤ 2 ^ 32 := Nat.pow_le_pow_right (by norm_num) h32
      have h3232 : (2 : Nat) ^ 32 = 2 * 2 ^ 31 := by norm_num
      have hbig : ¬ (2 ^ 32 - 2 ^ w + m < 2 ^ 31) := by omega
      have htc : ¬ (m < 2 ^ (w - 1)) := by omega
      simp only [toSigned32, twosComplement, hbig, if_false, htc]
      have h32lit : (2 : Nat) ^ w ≤ 4294967296 := le_trans h32' (by norm_num)
      have hcast : ((2 ^ 32 - 2 ^ w + m : Nat) : Int) = 2 ^ 32 - 2 ^ w + (m : Int) := by
        push_cast [h32lit]
        ring
      rw [hcast]
      ring
    · have hmlt' : m < 2 ^ (w - 1) := by
        apply Nat.lt_pow_two_of_testBit
        intro i hi
        rcases Nat.eq_or_lt_of_le hi with h | h
        · subst h
          simpa using htop
        · exact Nat.testBit_lt_two_pow
            (lt_of_lt_of_le hmlt (Nat.pow_le_pow_right (by norm_num) (by omega)))
      have h31 : (2 : Nat) ^ (w - 1) ≤ 2 ^ 31 := Nat.pow_le_pow_right (by norm_num) (by omega)
      have hsm : m < 2 ^ 31 := by omega
      have hcond : ¬ (w < 32 ∧ Nat.testBit m (w - 1) = true) := fun hc => htop hc.2
      rw [if_neg hcond]
      simp only [toSigned32, twosComplement]
      rw [if_pos hsm, if_pos hmlt']
  · have hw : w = 32 := by omega
    subst hw
    simp only [lt_irrefl, false_and, if_false, toSigned32, twosComplement]

/-- The single-bit fast path returns the raw stream bit, with no sign
extension. -/
theorem extract_one_bit (d : Nat → Nat) (off : Nat) :
    extract_field_value (some d) off 1 = ((d (off / 8)).testBit (off % 8)).toNat := by
  have hg : ¬ ((1 : Nat) = 0 ∨ (1 : Nat) > 32) := by norm_num
  have h : (d (off / 8) >>> (off % 8)) &&& 1 = ((d (off / 8)).testBit (off % 8)).toNat := by
    rw [Nat.and_one_is_mod, Nat.shiftRight_eq_div_pow, Nat.toNat_testBit]
  simp only [extract_field_value, hg, if_false, h]
  simp

lemma streamBit_bufOf (m off p : Nat) :
    streamBit (bufOf m off) p = Nat.testBit (m <<< off) p := by
  unfold streamBit bufOf
  rw [Nat.testBit_and, Nat.testBit_shiftRight]
  have h255 : (255 : Nat) = 2 ^ 8 - 1 := by norm_num
  rw [h255, Nat.testBit_two_pow_sub_one]
  have hlt : p % 8 < 8 := Nat.mod_lt _ (by norm_num)
  have hpos : 8 * (p / 8) + p % 8 = p := Nat.div_add_mod p 8
  simp [hlt, hpos]

lemma readBits_bufOf (m off w : Nat) (hm : m < 2 ^ w) :
    readBits (bufOf m off) off w = m := by
  apply Nat.eq_of_testBit_eq
  intro j
  rw [testBit_readBits]
  by_cases hj : j < w
  · rw [streamBit_bufOf, Nat.testBit_shiftLeft]
    simp [hj, Nat.le_add_right]
  · have hmj : m.testBit j = false :=
      Nat.testBit_lt_two_pow (lt_of_lt_of_le hm (Nat.pow_le_pow_right (by norm_num) (by omega)))
    simp [hj, hmj]

lemma twosComplement_emod (v : Int) (w : Nat) (hw : 1 ≤ w)
    (hlo : -2 ^ (w - 1) ≤ v) (hhi : v < 2 ^ (w - 1)) :
    twosComplement (v % (2 ^ w)).toNat w = v := by
  have hww : (2 : Int) ^ w = 2 * 2 ^ (w - 1) := by
    rw [← pow_succ']
    congr 1
    omega
  have hpow_pos : (0 : Int) < 2 ^ (w - 1) := by positivity
  have hcastp : ((2 ^ (w - 1) : Nat) : Int) = (2 : Int) ^ (w - 1) := by push_cast; ring
  by_cases hv : 0 ≤ v
  · have hmod : v % (2 ^ w) = v := Int.emod_eq_of_lt hv (by omega)
    rw [hmod]
    have htn : ((v.toNat : Int)) = v := Int.toNat_of_nonneg hv
    have hlt : v.toNat < 2 ^ (w - 1) := by omega
    simp [twosComplement, hlt, htn]
  · push_neg at hv
    have hmod : v % (2 ^ w) = v + 2 ^ w := by
      have h2 : (v + 2 ^ w) % (2 ^ w) = v % (2 ^ w) := Int.add_emod_self
      rw [← h2]
      exact Int.emod_eq_of_lt (by omega) (by omega)
    rw [hmod]
    have hge : ¬ ((v + 2 ^ w).toNat < 2 ^ (w - 1)) := by omega
    have htn : (((v + 2 ^ w).toNat : Int)) = v + 2 ^ w := Int.toNat_of_nonneg (by omega)
    simp only [twosComplement, hge, if_false, htn]
    ring

/-! ## Supporting lemmas: lists, report-map surgery, translator folds -/

lemma lt_of_get?_some {α : Type} : ∀ (l : List α) (i : Nat) (a : α),
    l.get? i = some a → i < l.length := by
  intro l
  induction l with
  | nil => intro i a h; simp at h
  | cons x xs ih =>
    intro i a h
    cases i with
    | zero => simp
    | succ n =>
      have := ih n a h
      simpa using Nat.succ_lt_succ this

lemma exists_get?_of_lt {α : Type} : ∀ (l : List α) (i : Nat),
    i < l.length → ∃ a, l.get? i = some a := by
  intro l
  induction l with
  | nil => intro i h; simp at h
  | cons x xs ih =>
    intro i h
    cases i with
    | zero => exact ⟨x, rfl⟩
    | succ n => exact ih n (by simpa using h)

lemma get?_set_self {α : Type} : ∀ (l : List α) (i : Nat) (a : α),
    i < l.length → (l.set i a).get? i = some a := by
  intro l
  induction l with
  | nil => intro i a h; simp at h
  | cons x xs ih =>
    intro i a h
    cases i with
    | zero => rfl
    | succ n => exact ih n a (by simpa using h)

lemma get?_set_ne {α : Type} : ∀ (l : List α) (i j : Nat) (a : α),
    i ≠ j → (l.set i a).get? j = l.get? j := by
  intro l
  induction l with
  | nil => intro i j a _; simp
  | cons x xs ih =>
    intro i j a hij
    cases i with
    | zero =>
      cases j with
      | zero => exact absurd rfl hij
      | succ m => rfl
    | succ n =>
      cases j with
      | zero => rfl
      | succ m => exact ih n m a (by omega)

lemma findIdx?_lt_length_aux {α : Type} (p : α → Bool) :
    ∀ (l : List α) (i j : Nat), List.findIdx? p l i = some j → j < i + l.length := by
  intro l
  induction l with
  | nil => intro i j h; simp [List.findIdx?] at h
  | cons x xs ih =>
    intro i j h
    rw [List.findIdx?_cons] at h
    split at h
    · simp only [Option.some.injEq] at h
      simp only [List.length_cons]
      omega
    · have := ih (i + 1) j h
      simp only [List.length_cons]
      omega

lemma findIdx?_lt_length {α : Type} (p : α → Bool) (l : List α) (j : Nat)
    (h : l.findIdx? p = some j) : j < l.length := by
  have := findIdx?_lt_length_aux p l 0 j h
  omega

lemma modifyReport_length (m : ReportMap) (i : Nat) (f : ReportInfo → ReportInfo) :
    (modifyReport m i f).reports.length = m.reports.length := by
  unfold modifyReport
  cases h : m.reports.get? i with
  | none => rfl
  | some p => cases p; simp [List.length_set]

lemma modifyReport_get_self (m : ReportMap) (i : Nat) (f : ReportInfo → ReportInfo)
    (rid : Nat) (r : ReportInfo) (h : m.reports.get? i = some (rid, r)) :
    (modifyReport m i f).reports.get? i = some (rid, f r) := by
  unfold modifyReport
  rw [h]
  exact get?_set_self _ _ _ (lt_of_get?_some _ _ _ h)

lemma modifyReport_get_other (m : ReportMap) (i j : Nat) (f : ReportInfo → ReportInfo)
    (h : i ≠ j) : (modifyReport m i f).reports.get? j = m.reports.get? j := by
  unfold modifyReport
  cases hm : m.reports.get? i with
  | none => rfl
  | some p => cases p; exact get?_set_ne _ _ _ _ h

lemma resolveCurrent_globals (s s1 : ParserState) (h : resolveCurrent s = some s1) :
    s1.usage_page = s.usage_page ∧ s1.report_size = s.report_size ∧
    s1.report_count = s.report_count ∧ s1.logical_min = s.logical_min ∧
    s1.logical_max = s.logical_max ∧ s1.has_usage_range = s.has_usage_range ∧
    s1.usage_minimum = s.usage_minimum ∧ s1.usage_maximum = s.usage_maximum ∧
    s1.current_usage = s.current_usage := by
  unfold resolveCurrent at h
  split at h
  · simp only [Option.some.injEq] at h
    subst h
    exact ⟨rfl, rfl, rfl, rfl, rfl, rfl, rfl, rfl, rfl⟩
  · split at h
    · simp only [Option.some.injEq] at h
      subst h
      exact ⟨rfl, rfl, rfl, rfl, rfl, rfl, rfl, rfl, rfl⟩
    · split at h
      · simp at h
      · simp only [Option.some.injEq] at h
        subst h
        exact ⟨rfl, rfl, rfl, rfl, rfl, rfl, rfl, rfl, rfl⟩

lemma resolveCurrent_valid (s s1 : ParserState) (h : resolveCurrent s = some s1)
    (hcur : s.current < s.rmap.reports.length) :
    s1.current < s1.rmap.reports.length := by
  unfold resolveCurrent at h
  split at h
  · simp only [Option.some.injEq] at h
    subst h
    exact hcur
  · split at h
    next j hfind =>
      simp only [Option.some.injEq] at h
      subst h
      exact findIdx?_lt_length _ _ _ hfind
    next =>
      split at h
      · simp at h
      · simp only [Option.some.injEq] at h
        subst h
        simp

lemma kbStep_keycode (kb : keyboard_report_t) (f : UsbHidField) :
    (kbStep kb f).keycode = kb.keycode := by
  unfold kbStep
  split
  · split
    · rfl
    · split <;> rfl
  · rfl

lemma kbFold_keycode (fields : List UsbHidField) :
    ∀ kb, (fields.foldl kbStep kb).keycode = kb.keycode := by
  induction fields with
  | nil => intro kb; rfl
  | cons f fs ih =>
    intro kb
    rw [List.foldl_cons, ih, kbStep_keycode]

lemma kbStep_modifier_mono (kb : keyboard_report_t) (f : UsbHidField) (j : Nat)
    (h : Nat.testBit kb.modifier j = true) :
    Nat.testBit (kbStep kb f).modifier j = true := by
  unfold kbStep
  split
  · split
    · simp [Nat.testBit_or, h]
    · split
      · exact h
      · exact h
  · exact h

lemma kbFold_modifier_mono (fields : List UsbHidField) :
    ∀ kb j, Nat.testBit kb.modifier j = true →
      Nat.testBit ((fields.foldl kbStep kb).modifier) j = true := by
  induction fields with
  | nil => intro kb j h; exact h
  | cons f fs ih =>
    intro kb j h
    rw [List.foldl_cons]
    exact ih _ j (kbStep_modifier_mono kb f j h)

lemma kbFold_modifier_set (fields : List UsbHidField) :
    ∀ kb (f : UsbHidField), f ∈ fields →
      f.attr.usage_page = HID_USAGE_KEYPAD → 0xE0 ≤ f.attr.usage →
      f.attr.usage ≤ 0xE7 → f.value ≠ 0 →
      Nat.testBit ((fields.foldl kbStep kb).modifier) (f.attr.usage - 0xE0) = true := by
  induction fields with
  | nil => intro kb f hmem; exact absurd hmem (List.not_mem_nil f)
  | cons g gs ih =>
    intro kb f hmem hp hlo hhi hv
    rw [List.foldl_cons]
    rcases List.mem_cons.mp hmem with h | h
    · subst h
      apply kbFold_modifier_mono
      unfold kbStep
      rw [if_pos hp, if_pos ⟨hlo, hhi, hv⟩]
      simp [Nat.testBit_or, Nat.testBit_shiftLeft]
    · exact ih _ f h hp hlo hhi hv

lemma mapExtends_refl (m : ReportMap) : MapExtends m m :=
  ⟨le_rfl, fun _ p h => ⟨p, h, rfl, [], by simp⟩⟩

lemma mapExtends_trans {a b c : ReportMap} (h1 : MapExtends a b)
    (h2 : MapExtends b c) : MapExtends a c := by
  refine ⟨le_trans h1.1 h2.1, fun i p hp => ?_⟩
  obtain ⟨q, hq, hid, t, ht⟩ := h1.2 i p hp
  obtain ⟨q', hq', hid', t', ht'⟩ := h2.2 i q hq
  exact ⟨q', hq', by rw [hid', hid], t ++ t', by rw [ht', ht, List.append_assoc]⟩

lemma mapExtends_of_reports_eq {m m' : ReportMap} (h : m.reports = m'.reports) :
    MapExtends m m' :=
  ⟨by rw [h], fun i p hp => ⟨p, by rw [← h]; exact hp, rfl, [], by simp⟩⟩

lemma modifyReport_extends (m : ReportMap) (i : Nat) (f : ReportInfo → ReportInfo)
    (hf : ∀ r, ∃ t, (f r).fields = r.fields ++ t) :
    MapExtends m (modifyReport m i f) := by
  refine ⟨by rw [modifyReport_length], fun j p hp => ?_⟩
  by_cases hij : i = j
  · subst hij
    obtain ⟨rid, r⟩ := p
    obtain ⟨t, ht⟩ := hf r
    exact ⟨(rid, f r), modifyReport_get_self _ _ _ _ _ hp, rfl, t, ht⟩
  · rw [modifyReport_get_other _ _ _ _ hij]
    exact ⟨p, hp, rfl, [], by simp⟩

lemma mapExtends_append (m : ReportMap) (x : Nat × ReportInfo) :
    MapExtends m { m with reports := m.reports ++ [x] } := by
  refine ⟨by simp, fun i p hp => ?_⟩
  have h : (m.reports ++ [x]).get? i = some p := by
    rw [List.get?_append (lt_of_get?_some _ _ _ hp)]
    exact hp
  exact ⟨p, h, rfl, [], by simp⟩

lemma exists_append_of_eq {α : Type} {a u t0 : List α} (x : List α) (h : a = u ++ t0) :
    ∃ t, a ++ x = u ++ t :=
  ⟨t0 ++ x, by rw [h, List.append_assoc]⟩

lemma emitRange_fields_aux (s : ParserState) (rel : Bool) (rs : Nat) :
    ∀ (fuel j : Nat) (u : List FieldInfo) (r : ReportInfo),
      (∃ t0, r.fields = u ++ t0) →
      ∃ t, (emitRange s rel rs fuel j r).fields = u ++ t := by
  intro fuel
  induction fuel with
  | zero => intro j u r h; simpa [emitRange] using h
  | succ fuel ih =>
    intro j u r h
    rw [emitRange]
    split
    · apply ih
      obtain ⟨t0, ht0⟩ := h
      exact exists_append_of_eq _ ht0
    · exact h

lemma emitUsages_fields_aux (s : ParserState) (isVar rel : Bool) :
    ∀ (fuel j : Nat) (u : List FieldInfo) (r : ReportInfo),
      (∃ t0, r.fields = u ++ t0) →
      ∃ t, (emitUsages s isVar rel fuel j r).fields = u ++ t := by
  intro fuel
  induction fuel with
  | zero => intro j u r h; simpa [emitUsages] using h
  | succ fuel ih =>
    intro j u r h
    rw [emitUsages]
    split
    · apply ih
      obtain ⟨t0, ht0⟩ := h
      exact exists_append_of_eq _ ht0
    · exact h

lemma resolveCurrent_extends (s s1 : ParserState) (h : resolveCurrent s = some s1) :
    MapExtends s.rmap s1.rmap := by
  unfold resolveCurrent at h
  split at h
  · simp only [Option.some.injEq] at h
    subst h
    exact mapExtends_refl _
  · split at h
    next j hfind =>
      simp only [Option.some.injEq] at h
      subst h
      exact mapExtends_refl _
    next =>
      split at h
      · simp at h
      · simp only [Option.some.injEq] at h
        subst h
        exact mapExtends_append _ _

lemma processMainInputOutput_extends (s : ParserState) (data : Nat) :
    MapExtends s.rmap (processMainInputOutput s data).rmap := by
  have hreset : ∀ r : ReportInfo, ∃ t : List FieldInfo,
      ({ r with usage_stack := ([] : List Nat) } : ReportInfo).fields
        = r.fields ++ t := fun r => ⟨[], by simp⟩
  unfold processMainInputOutput
  cases hget : s.rmap.reports.get? s.current with
  | none => exact mapExtends_refl _
  | some p =>
    obtain ⟨rid, rOld⟩ := p
    by_cases hcap : rOld.fields.length < MAX_REPORT_FIELDS
    · simp only [if_pos hcap]
      cases hres : resolveCurrent s with
      | none => exact mapExtends_refl _
      | some s1 =>
        split
        · next heq => exact absurd heq (by simp)
        · next s1' heq =>
          injection heq with hinj
          subst hinj
          refine mapExtends_trans (resolveCurrent_extends s s1 hres) ?_
          split
          · refine mapExtends_trans (modifyReport_extends _ _ _ ?_)
              (modifyReport_extends _ _ _ hreset)
            intro r
            exact ⟨_, rfl⟩
          · split
            · refine mapExtends_trans (modifyReport_extends _ _ _ ?_)
                (modifyReport_extends _ _ _ hreset)
              intro r
              exact ⟨_, rfl⟩
            · split
              · refine mapExtends_trans (modifyReport_extends _ _ _ ?_)
                  (modifyReport_extends _ _ _ hreset)
                intro r
                exact emitRange_fields_aux s1 _ _ s1.report_count 0 r.fields r ⟨[], by simp⟩
              · refine mapExtends_trans (modifyReport_extends _ _ _ ?_)
                  (modifyReport_extends _ _ _ hreset)
                intro r
                exact emitUsages_fields_aux s1 _ _ s1.report_count 0 r.fields r ⟨[], by simp⟩
    · simp only [if_neg hcap]
      exact mapExtends_refl _

lemma processItem_extends (s : ParserState) (ityp itag isz data : Nat) :
    MapExtends s.rmap (processItem s ityp itag isz data).rmap := by
  unfold processItem
  split
  · -- Main
    split
    · exact processMainInputOutput_extends s data
    · exact processMainInputOutput_extends s data
    · split
      · exact mapExtends_of_reports_eq rfl
      · exact mapExtends_refl _
    · split
      · exact mapExtends_of_reports_eq rfl
      · exact mapExtends_refl _
    · exact mapExtends_refl _
  · -- Global
    split <;> exact mapExtends_refl _
  · -- Local
    split
    · exact modifyReport_extends _ _ _ (fun r => ⟨[], by split <;> simp⟩)
    · exact mapExtends_refl _
    · exact mapExtends_refl _
    · exact mapExtends_refl _
  · exact mapExtends_refl _

lemma parseLoop_extends (d : Nat → Nat) (length : Nat) :
    ∀ (fuel i : Nat) (s : ParserState),
      MapExtends s.rmap ((parseLoop d length fuel i s).rmap) := by
  intro fuel
  induction fuel with
  | zero => intro i s; exact mapExtends_refl _
  | succ fuel ih =>
    intro i s
    rw [parseLoop]
    split
    · exact mapExtends_trans (processItem_extends _ _ _ _ _) (ih _ _)
    · exact mapExtends_refl _

lemma readDataAux_congr (d1 d2 : Nat → Nat) (length : Nat)
    (h : ∀ k, k < length → d1 k = d2 k) :
    ∀ cnt i j acc, readDataAux d1 length cnt i j acc = readDataAux d2 length cnt i j acc := by
  intro cnt
  induction cnt with
  | zero => intro i j acc; rfl
  | succ cnt ih =>
    intro i j acc
    unfold readDataAux
    split
    · next hi => rw [h i hi]; exact ih _ _ _
    · rfl

lemma parseLoop_congr (d1 d2 : Nat → Nat) (length : Nat)
    (h : ∀ k, k < length → d1 k = d2 k) :
    ∀ (fuel i : Nat) (s : ParserState),
      parseLoop d1 length fuel i s = parseLoop d2 length fuel i s := by
  intro fuel
  induction fuel with
  | zero => intro i s; rfl
  | succ fuel ih =>
    intro i s
    rw [parseLoop, parseLoop]
    by_cases hi : i < length
    · simp only [if_pos hi]
      rw [h i hi, readDataAux_congr d1 d2 length h]
      exact ih _ _
    · simp only [if_neg hi]

/-! ## Claims -/

/-- Claim C1, counterexample: with raw payload byte 0x05, extracting the
1-bit field at bit offset 0 (whose bit is set) yields 1, not the -1 the
claim states — the single-bit fast path of `extract_field_value` returns
before the sign-extension step. -/
theorem claim_C1_counterexample : extract_field_value (some payload05) 0 1 ≠ -1 := by
  decide

/-- Claim C1 (amended): for every payload and every bit offset, extracting
a field of bit_size 1 whose bit is set yields 1 (the single-bit fast path
returns the raw bit, unsigned); decoding raw payload byte 0x05 with eight
1-bit fields at consecutive bit offsets yields field 0 = 1, field 1 = 0,
field 2 = 1, and fields 3–7 = 0. -/
theorem claim_C1_amended :
    (∀ d off, Nat.testBit (d (off / 8)) (off % 8) = true →
      extract_field_value (some d) off 1 = 1) ∧
    (List.range 8).map (fun j => extract_field_value (some payload05) j 1)
      = [1, 0, 1, 0, 0, 0, 0, 0] := by
  constructor
  · intro d off h
    rw [extract_one_bit, h]
    rfl
  · decide

theorem claim_C1_witness :
    Nat.testBit (payload05 (0 / 8)) (0 % 8) = true ∧
      extract_field_value (some payload05) 0 1 = 1 :=
  ⟨by decide, claim_C1_amended.1 payload05 0 (by decide)⟩

/-- Claim C2, counterexample: writing the signed value -1 at width 1
(bit pattern 1, the only negative value of that width) and extracting it at
offset 0 and width 1 yields 1, not -1: the round-trip fails at width 1. -/
theorem claim_C2_counterexample :
    extract_field_value (some (bufOf ((-1 : Int) % 2 ^ 1).toNat 0)) 0 1 ≠ -1 := by
  decide

/-- Claim C2 (amended): for every bit offset, writing any signed value of
width in {2, 8, 16, 32} into a buffer and extracting it at that offset and
width recovers the exact value, including negative values at each width
(two's-complement, LSB-first); at width 1 the extractor instead returns the
raw bit, so only the values 0 and 1 are recovered there. -/
theorem claim_C2_amended :
    (∀ (off : Nat) (v : Int) (w : Nat), (w = 2 ∨ w = 8 ∨ w = 16 ∨ w = 32) →
      -2 ^ (w - 1) ≤ v → v < 2 ^ (w - 1) →
      extract_field_value (some (bufOf (v % 2 ^ w).toNat off)) off w = v) ∧
    (∀ (off : Nat) (v : Int),
      extract_field_value (some (bufOf (v % 2 ^ 1).toNat off)) off 1 = v % 2 ^ 1) := by
  constructor
  · intro off v w hw hlo hhi
    have h2 : 2 ≤ w := by rcases hw with h | h | h | h <;> omega
    have h32 : w ≤ 32 := by rcases hw with h | h | h | h <;> omega
    have hpowpos : (0 : Int) < 2 ^ w := by positivity
    have hcast : ((2 ^ w : Nat) : Int) = (2 : Int) ^ w := by push_cast; ring
    have hm : (v % 2 ^ w).toNat < 2 ^ w := by
      have h0 := Int.emod_nonneg v (ne_of_gt hpowpos)
      have h1 := Int.emod_lt_of_pos v hpowpos
      omega
    rw [extract_eq_twosComplement _ _ _ h2 h32, readBits_bufOf _ _ _ hm,
      twosComplement_emod v w (by omega) hlo hhi]
  · intro off v
    have hpowpos : (0 : Int) < 2 ^ 1 := by positivity
    have h0 := Int.emod_nonneg v (ne_of_gt hpowpos)
    have h1 := Int.emod_lt_of_pos v hpowpos
    set m := (v % 2 ^ 1).toNat with hmdef
    have hm2 : m < 2 := by omega
    have hmv : (m : Int) = v % 2 ^ 1 := by omega
    rw [extract_one_bit]
    have hsb : Nat.testBit (bufOf m off (off / 8)) (off % 8) = Nat.testBit m 0 := by
      have hstream := streamBit_bufOf m off off
      unfold streamBit at hstream
      rw [hstream, Nat.testBit_shiftLeft]
      simp
    rw [hsb]
    have hm01 : m = 0 ∨ m = 1 := by omega
    rcases hm01 with h | h <;> rw [h] at hmv ⊢ <;> simp <;> omega

theorem claim_C2_witness :
    extract_field_value (some (bufOf ((-5 : Int) % 2 ^ 8).toNat 3)) 3 8 = -5 :=
  claim_C2_amended.1 3 (-5) 8 (Or.inr (Or.inl rfl)) (by norm_num) (by norm_num)

/-- Claim C3, counterexample: the Scenario-C report (modifier 0xE1 plus
keys 0x04 and 0x05) produces the outgoing bytes [0x02,0,0,0,0,0,0,0]: the
two keycodes are NOT placed in slots 0 and 1 (they would give bytes 2 and 3
= 0x04, 0x05).  `process_keyboard_report` accumulates keys in the
`keycodes` bitmask member, which `ble_hid_device_send_keyboard_report`
never reads. -/
theorem claim_C3_counterexample :
    (process_keyboard_report 3 kbScenarioReport).bind
        (ble_hid_device_send_keyboard_report true)
      = some [0x02, 0x00, 0x00, 0x00, 0x00, 0x00, 0x00, 0x00] ∧
    (process_keyboard_report 3 kbScenarioReport).bind
        (ble_hid_device_send_keyboard_report true)
      ≠ some [0x02, 0x00, 0x04, 0x05, 0x00, 0x00, 0x00, 0x00] := by
  decide

/-- Claim C3 (amended): for every keyboard DecodedReport whose field count
matches the stored map, each non-zero decoded field on the Keyboard/Keypad
page with usage in 0xE0–0xE7 sets the corresponding modifier bit of the
outgoing 8-byte report; each other non-zero key usage (≤ 0xA4) is OR-ed
into the `keycodes` bitmask member, which the BLE send path ignores — the
six keycode slots of the outgoing report always remain 0.  In particular
the Scenario-C report yields modifier 0x02 and all six slots 0. -/
theorem claim_C3_amended :
    (∀ (expected : Nat) (r : UsbHidReport) (kb : keyboard_report_t),
      process_keyboard_report expected r = some kb →
        kb.keycode = List.replicate 6 0 ∧
        ∀ f ∈ r.fields, f.attr.usage_page = HID_USAGE_KEYPAD →
          0xE0 ≤ f.attr.usage → f.attr.usage ≤ 0xE7 → f.value ≠ 0 →
          Nat.testBit kb.modifier (f.attr.usage - 0xE0) = true) ∧
    (process_keyboard_report 3 kbScenarioReport).map
        (fun kb => (kb.modifier, kb.keycode))
      = some (0x02, List.replicate 6 0) := by
  constructor
  · intro expected r kb h
    unfold process_keyboard_report at h
    split at h
    · simp at h
    · simp only [Option.some.injEq] at h
      subst h
      refine ⟨?_, ?_⟩
      · rw [kbFold_keycode]
        rfl
      · intro f hf hp h1 h2 h3
        exact kbFold_modifier_set _ _ f hf hp h1 h2 h3
  · decide

theorem claim_C3_witness :
    process_keyboard_report 3 kbScenarioReport
      = some { modifier := 2, reserved := 0, keycodes := 48,
               keycode := List.replicate 6 0 } ∧
    ({ modifier := 2, reserved := 0, keycodes := 48,
       keycode := List.replicate 6 0 } : keyboard_report_t).keycode
      = List.replicate 6 0 ∧
    Nat.testBit 2 1 = true :=
  ⟨by decide,
   (claim_C3_amended.1 3 kbScenarioReport
     { modifier := 2, reserved := 0, keycodes := 48, keycode := List.replicate 6 0 }
     (by decide)).1,
   (claim_C3_amended.1 3 kbScenarioReport
     { modifier := 2, reserved := 0, keycodes := 48, keycode := List.replicate 6 0 }
     (by decide)).2
     { attr := { usage_page := 7, usage := 0xE1 }, value := 1 }
     (by decide) rfl (by norm_num) (by norm_num) (by norm_num)⟩

/-- Claim C4 (confirmed): the fixed 15-item boot-keyboard descriptor parses
to exactly one report (ID 0) with exactly 9 fields — 8 variable single-bit
fields with usages 0xE0..0xE7 at consecutive bit offsets 0..7, followed by
one constant 8-bit padding field — and total_bits = 16. -/
theorem claim_C4 :
    (parse_report_descriptor (fun i => bootKbdDesc.getD i 0) 29).rmap.reports
      = [(0, { fields := (List.range 8).map bootModField ++ [bootPadField],
               total_bits := 16, usage_stack := [] })] := by
  decide

/-- Claim C5, counterexample: after fully processing the Collection Main
item of `c5DescA` the usage stack still holds 0x41 (it is not cleared), and
with `c5DescB` the usages collected before the Collection item survive it
and are assigned to the fields of the later Input item (usages 0x41, 0x42);
had the stack been cleared at the Collection item, both fields would have
received the current-usage value 0x42. -/
theorem claim_C5_counterexample :
    ((parse_report_descriptor (fun i => c5DescA.getD i 0) 4).rmap.reports.get? 0).map
        (fun p => p.2.usage_stack) = some [0x41] ∧
    ([0x41] : List Nat) ≠ [] ∧
    ((parse_report_descriptor (fun i => c5DescB.getD i 0) 12).rmap.reports.get? 0).map
        (fun p => p.2.fields.map (fun f => f.attr.usage)) = some [0x41, 0x42] := by
  decide

/-- Claim C5 (amended): the parser's local state (usage stack,
has_usage_range, usage_minimum, usage_maximum) is reset after a Main
Input/Output item whose emission block runs (the current report exists,
its field table is not full, and report-ID resolution succeeds); Collection
and End Collection Main items leave all of it — and every report —
untouched, so local usage state survives them. -/
theorem claim_C5_amended :
    (∀ (s : ParserState) (tag isz data : Nat), (tag = 8 ∨ tag = 9) →
      ∀ rid rOld, s.rmap.reports.get? s.current = some (rid, rOld) →
      rOld.fields.length < MAX_REPORT_FIELDS →
      ∀ s1, resolveCurrent s = some s1 →
      (processItem s 0 tag isz data).has_usage_range = false ∧
      (processItem s 0 tag isz data).usage_minimum = 0 ∧
      (processItem s 0 tag isz data).usage_maximum = 0 ∧
      ((processItem s 0 tag isz data).rmap.reports.get? s1.current).map
        (fun p => p.2.usage_stack) = some []) ∧
    (∀ (s : ParserState) (tag isz data : Nat), (tag = 10 ∨ tag = 12) →
      (processItem s 0 tag isz data).has_usage_range = s.has_usage_range ∧
      (processItem s 0 tag isz data).usage_minimum = s.usage_minimum ∧
      (processItem s 0 tag isz data).usage_maximum = s.usage_maximum ∧
      (processItem s 0 tag isz data).current_usage = s.current_usage ∧
      (processItem s 0 tag isz data).rmap.reports = s.rmap.reports) := by
  constructor
  · intro s tag isz data htag rid rOld hold hcap s1 hres
    have hproc : processItem s 0 tag isz data = processMainInputOutput s data := by
      rcases htag with h | h <;> subst h <;> rfl
    rw [hproc]
    unfold processMainInputOutput
    rw [hold]
    simp only [if_pos hcap]
    rw [hres]
    have hvalid1 : s1.current < s1.rmap.reports.length :=
      resolveCurrent_valid s s1 hres (lt_of_get?_some _ _ _ hold)
    obtain ⟨⟨rid1, r1⟩, hget1⟩ := exists_get?_of_lt _ _ hvalid1
    refine ⟨rfl, rfl, rfl, ?_⟩
    split
    · next x heq => exact absurd heq (by simp)
    · next x s1' heq =>
      injection heq with hinj
      subst hinj
      split
      · rw [modifyReport_get_self _ _ _ _ _ (modifyReport_get_self _ _ _ _ _ hget1)]
        rfl
      · split
        · rw [modifyReport_get_self _ _ _ _ _ (modifyReport_get_self _ _ _ _ _ hget1)]
          rfl
        · split
          · rw [modifyReport_get_self _ _ _ _ _ (modifyReport_get_self _ _ _ _ _ hget1)]
            rfl
          · rw [modifyReport_get_self _ _ _ _ _ (modifyReport_get_self _ _ _ _ _ hget1)]
            rfl
  · intro s tag isz data htag
    rcases htag with h | h <;> subst h <;>
      simp only [processItem] <;> split <;> exact ⟨rfl, rfl, rfl, rfl, rfl⟩

theorem claim_C5_witness :
    (processItem initState 0 8 0 1).has_usage_range = false ∧
    (processItem initState 0 8 0 1).usage_minimum = 0 ∧
    (processItem initState 0 8 0 1).usage_maximum = 0 ∧
    ((processItem initState 0 8 0 1).rmap.reports.get? 0).map
      (fun p => p.2.usage_stack) = some [] :=
  claim_C5_amended.1 initState 8 0 1 (Or.inl rfl) 0 emptyReport rfl
    (by norm_num [MAX_REPORT_FIELDS, emptyReport]) initState rfl

/-- Claim C6 (confirmed): the inactivity-timer callback moves `Active` to
`Suspended` only when a USB HID device is connected, a BLE peer is
connected, no web session is active and sleep is enabled; if any of the
four is false the state stays `Active` and `ble_hid_device_deinit` is not
invoked. -/
theorem claim_C6 (env : BridgeEnv) (s : BridgeState) (hA : s.ble_stack_active = true) :
    ((inactivity_timer_callback env s).1.ble_stack_active = false →
      env.usb_connected = true ∧ env.ble_connected = true ∧
      env.wifi_connected = false ∧ env.enable_sleep = true) ∧
    ((env.usb_connected = false ∨ env.ble_connected = false ∨
      env.wifi_connected = true ∨ env.enable_sleep = false) →
      inactivity_timer_callback env s = (s, false)) := by
  obtain ⟨mo, usb, ble, wifi, slp, dok, iok, ini⟩ := env
  obtain ⟨a⟩ := s
  cases mo <;> cases usb <;> cases ble <;> cases wifi <;> cases slp <;> cases dok <;>
    simp_all [inactivity_timer_callback]

theorem claim_C6_witness :
    inactivity_timer_callback
      { mutex_ok := true, usb_connected := false, ble_connected := true,
        wifi_connected := false, enable_sleep := true, deinit_ok := true,
        init_ok := true, initialized := true }
      { ble_stack_active := true }
      = ({ ble_stack_active := true }, false) :=
  (claim_C6 _ _ rfl).2 (Or.inl rfl)

/-- Claim C7 (confirmed): if `ble_hid_device_deinit` fails during the
Active→Suspended transition the state is reverted to Active (deinit was
invoked); if `ble_hid_device_init` fails during the Suspended→Active
transition on an incoming report, the state is reverted to Suspended and
the report is dropped with an error (it is not translated). -/
theorem claim_C7 (env : BridgeEnv) (s : BridgeState) :
    (s.ble_stack_active = true → env.mutex_ok = true → env.usb_connected = true →
      env.ble_connected = true → env.wifi_connected = false → env.enable_sleep = true →
      env.deinit_ok = false →
      inactivity_timer_callback env s = ({ ble_stack_active := true }, true)) ∧
    (s.ble_stack_active = false → env.initialized = true → env.mutex_ok = true →
      env.init_ok = false →
      hid_bridge_process_report env s
        = ({ ble_stack_active := false }, ReportOutcome.errInitFail)) := by
  obtain ⟨mo, usb, ble, wifi, slp, dok, iok, ini⟩ := env
  obtain ⟨a⟩ := s
  constructor
  · intro h1 h2 h3 h4 h5 h6 h7
    simp_all [inactivity_timer_callback]
  · intro h1 h2 h3 h4
    simp_all [hid_bridge_process_report]

theorem claim_C7_witness :
    inactivity_timer_callback
      { mutex_ok := true, usb_connected := true, ble_connected := true,
        wifi_connected := false, enable_sleep := true, deinit_ok := false,
        init_ok := true, initialized := true }
      { ble_stack_active := true }
      = ({ ble_stack_active := true }, true) ∧
    hid_bridge_process_report
      { mutex_ok := true, usb_connected := true, ble_connected := true,
        wifi_connected := false, enable_sleep := true, deinit_ok := true,
        init_ok := false, initialized := true }
      { ble_stack_active := false }
      = ({ ble_stack_active := false }, ReportOutcome.errInitFail) :=
  ⟨(claim_C7 _ _).1 rfl rfl rfl rfl rfl rfl rfl,
   (claim_C7 _ _).2 rfl rfl rfl rfl⟩

/-- Claim C8 (confirmed): the parser is total and safe on every input:
(1) it never reads past the declared descriptor length — the result depends
only on the first `length` bytes; (2) from any state, processing any
further bytes — malformed or truncated items included — only extends the
report map: every report and every field emitted before that point is kept
(so a malformed item that truncates the loop loses nothing already parsed);
(3) a descriptor that decodes to zero fields (here: the empty descriptor)
is a valid result.  Totality (no fatal error) holds by construction: the
parser is a Lean function returning a `ParserState` for every input. -/
theorem claim_C8 :
    (∀ (d1 d2 : Nat → Nat) (length : Nat), (∀ k, k < length → d1 k = d2 k) →
      parse_report_descriptor d1 length = parse_report_descriptor d2 length) ∧
    (∀ (d : Nat → Nat) (length fuel i : Nat) (s : ParserState),
      MapExtends s.rmap ((parseLoop d length fuel i s).rmap)) ∧
    ((parse_report_descriptor (fun k => k) 0).rmap.reports.map
      (fun p => (p.1, p.2.fields.length)) = [(0, 0)]) := by
  refine ⟨?_, ?_, ?_⟩
  · intro d1 d2 length h
    unfold parse_report_descriptor
    exact parseLoop_congr d1 d2 length h length 0 initState
  · intro d length fuel i s
    exact parseLoop_extends d length fuel i s
  · decide

theorem claim_C8_witness :
    parse_report_descriptor (fun _ => 0) 2
      = parse_report_descriptor (fun k => if k < 2 then 0 else 7) 2 :=
  claim_C8.1 _ _ 2 (fun k hk => by simp [hk])

/-- Claim C9 (confirmed): a Main Input/Output item with the constant flag
set appends exactly one padding field to the resolved report — usage 0,
logical_min = logical_max = 0, constant set, variable/relative clear,
spanning report_size * report_count bits at the report's current
total_bits — and total_bits grows by exactly report_size * report_count
(the capacity and 16-bit hypotheses mirror the C guards and types). -/
theorem claim_C9 (s : ParserState) (tag isz data : Nat) (htag : tag = 8 ∨ tag = 9)
    (hconst : data &&& 1 ≠ 0)
    (rid : Nat) (rOld : ReportInfo)
    (hold : s.rmap.reports.get? s.current = some (rid, rOld))
    (hcap : rOld.fields.length < MAX_REPORT_FIELDS)
    (s1 : ParserState) (hres : resolveCurrent s = some s1)
    (rid1 : Nat) (r1 : ReportInfo)
    (hget1 : s1.rmap.reports.get? s1.current = some (rid1, r1))
    (hbits : r1.total_bits + s.report_size * s.report_count < 2 ^ 16) :
    (processItem s 0 tag isz data).rmap.reports.get? s1.current
      = some (rid1,
          { fields := r1.fields ++
              [{ attr := { usage_page := s.usage_page, usage := 0, usage_maximum := 0,
                           report_size := s.report_size, report_count := s.report_count,
                           logical_min := 0, logical_max := 0,
                           constant := true, var := false, relative := false, array := false },
                 bit_offset := r1.total_bits, bit_size := s.report_size * s.report_count }],
            total_bits := r1.total_bits + s.report_size * s.report_count,
            usage_stack := [] }) := by
  obtain ⟨hup, hrs, hrc, hlmin, hlmax, hhr, humin, humax, hcu⟩ :=
    resolveCurrent_globals s s1 hres
  have hproc : processItem s 0 tag isz data = processMainInputOutput s data := by
    rcases htag with h | h <;> subst h <;> rfl
  rw [hproc]
  unfold processMainInputOutput
  rw [hold]
  simp only [if_pos hcap]
  rw [hres]
  split
  · next x heq => exact absurd heq (by simp)
  · next x s1' heq =>
    injection heq with hinj
    subst hinj
    split
    · rw [modifyReport_get_self _ _ _ _ _ (modifyReport_get_self _ _ _ _ _ hget1)]
      have hmod : (r1.total_bits + s1.report_size * s1.report_count) % 2 ^ 16
          = r1.total_bits + s.report_size * s.report_count := by
        rw [hrs, hrc]
        exact Nat.mod_eq_of_lt hbits
      simp [mkConstField, hup, hrs, hrc, hmod]
      omega
    · next hnc => exact absurd hconst hnc

theorem claim_C9_witness :
    (processItem c9State 0 8 0 1).rmap.reports.get? 0
      = some (0,
          { fields :=
              [{ attr := { usage_page := 1, usage := 0, usage_maximum := 0,
                           report_size := 8, report_count := 2,
                           logical_min := 0, logical_max := 0,
                           constant := true, var := false, relative := false,
                           array := false },
                 bit_offset := 0, bit_size := 16 }],
            total_bits := 16, usage_stack := [] }) :=
  claim_C9 c9State 8 0 1 (Or.inl rfl) (by decide) 0 emptyReport rfl
    (by norm_num [MAX_REPORT_FIELDS, emptyReport]) c9State rfl 0 emptyReport rfl
    (by decide)

/-- Claim C10 (confirmed): `extract_field_value` is total at its public
interface: for every bit_offset it returns 0 whenever the data pointer is
NULL, bit_size is 0, or bit_size exceeds 32 — and the result is independent
of the payload in those cases (no payload memory is consulted). -/
theorem claim_C10 (bit_offset : Nat) :
    (∀ bit_size, extract_field_value none bit_offset bit_size = 0) ∧
    (∀ d, extract_field_value (some d) bit_offset 0 = 0) ∧
    (∀ d bit_size, bit_size > 32 → extract_field_value (some d) bit_offset bit_size = 0) := by
  refine ⟨fun _ => rfl, fun d => by simp [extract_field_value], fun d bs h => ?_⟩
  simp only [extract_field_value]
  rw [if_pos (Or.inr h)]

theorem claim_C10_witness : extract_field_value (some payload05) 3 33 = 0 :=
  (claim_C10 3).2.2 payload05 33 (by norm_num)

end AdeptExt
